import Mathlib

/-!
Shallow embedding of the P6 traffic-engineering optimizer.

Sources embedded here:
* `p6/linearOptimization/LinearOptimization.py` — `runLinearOptimizationModel`:
  the decision variables, constraints and objective that the function registers
  with the solver, plus the result extraction performed on OPTIMAL status.
* `p6/utils/data.py` — `_groupFunc`, `_mergeResults`, and the dictionary
  construction loops of `readFlows`, `readLinks` and `readTraffic`.

Python strings are modelled as `List Char`, dictionaries as association lists
(insertion order preserved, update overwrites in place), numbers as `Rat`.
Python `d[k]` lookups are totalised with `Option`/`getD`; the CSV reading,
multiprocessing and logging are external collaborators and are not modelled.
-/

/-- A Python string: a list of characters. -/
abbrev Str : Type := List Char

/-- Association-list lookup, the embedding of a Python dict access `d.get(k)`. -/
def alookup {α β : Type} [DecidableEq α] (k : α) : List (α × β) → Option β
  | [] => none
  | kv :: rest => if kv.1 = k then some kv.2 else alookup k rest

/-- Association-list insert-or-overwrite, the embedding of `d[k] = v`:
an existing binding is overwritten in place, a new key is appended. -/
def upsert {α β : Type} [DecidableEq α] (k : α) (v : β) : List (α × β) → List (α × β)
  | [] => [(k, v)]
  | kv :: rest => if kv.1 = k then (k, v) :: rest else kv :: upsert k v rest

/-- First of two options that is `some`. -/
def firstSome {β : Type} (a b : Option β) : Option β :=
  match a with
  | some v => some v
  | none => b

/-- The embedding of Python `s.split(";")` on a string as `List Char`. -/
def splitSemi : Str → List Str
  | [] => [[]]
  | c :: rest =>
    if c = ';' then [] :: splitSemi rest
    else
      match splitSemi rest with
      | [] => [[c]]
      | h :: t => (c :: h) :: t

/-- Link-name construction of `readLinks` (data.py line 143):
`linkName = linkStart + ";" + linkEnd`. -/
def mkLinkName (s e : Str) : Str := s ++ [';'] ++ e

/-- Merging one per-chunk result dict into the accumulator, key by key, as the
dict comprehension of `_mergeResults` (data.py line 40) does. -/
def mergeOne {α β : Type} [DecidableEq α] (acc : List (α × β)) (result : List (α × β)) :
    List (α × β) :=
  result.foldl (fun a kv => upsert kv.1 kv.2 a) acc

/-- `_mergeResults` (data.py lines 39-40): `{k: v for result in results for k, v in
result.items()}`. Later results overwrite earlier ones on duplicate keys. -/
def mergeResults {α β : Type} [DecidableEq α] (results : List (List (α × β))) : List (α × β) :=
  results.foldl mergeOne []

/-- Lookup in the nested timestamp → name → value dictionaries built by
`readFlows` and `readTraffic`. -/
def lookupNested {β : Type} (d : List (Str × List (Str × β))) (ts fn : Str) : Option β :=
  match alookup ts d with
  | some inner => alookup fn inner
  | none => none

/-- The assignment `flows[timestamp][flowName] = paths` (data.py lines 110-112),
with the enclosing `if timestamp not in flows: flows[timestamp] = {}`. -/
def insertFlow {β : Type} (ts fn : Str) (v : β) (d : List (Str × List (Str × β))) :
    List (Str × List (Str × β)) :=
  upsert ts (upsert fn v ((alookup ts d).getD [])) d

/-- The flows-dictionary construction loop of `readFlows` (data.py lines 103-113).
Input: the grouped `(timestamp, flowName) → list of path strings` pairs produced
by the (external) grouping step; each path string already had its surrounding
brackets stripped by `_groupFunc`. For each path of a group passing
`len(path) > 1 and sd[0] != sd[1]`, the whole group list is stored. -/
def constructFlows (grouped : List ((Str × Str) × List Str)) :
    List (Str × List (Str × List Str)) :=
  grouped.foldl
    (fun flows g =>
      let sd := splitSemi g.1.2
      g.2.foldl
        (fun fl p =>
          if 1 < p.length ∧ (sd.getD 0 []) ≠ (sd.getD 1 []) then insertFlow g.1.1 g.1.2 g.2 fl
          else fl)
        flows)
    []

/-- The `groupby(["timestamp", "flowName"])["traffic"].first()` step of
`readTraffic` (data.py lines 194-196): one record per key, keeping the value of
the first record with that key. -/
def groupFirstAux (seen : List (Str × Str)) :
    List ((Str × Str) × Rat) → List ((Str × Str) × Rat)
  | [] => []
  | r :: rest =>
    if r.1 ∈ seen then groupFirstAux seen rest
    else r :: groupFirstAux (r.1 :: seen) rest

/-- First-record-per-key grouping, starting from no key seen. -/
def groupFirst (records : List ((Str × Str) × Rat)) : List ((Str × Str) × Rat) :=
  groupFirstAux [] records

/-- The traffic-dictionary construction loop of `readTraffic` (data.py
lines 201-209): the timestamp entry is created before the self-loop test, and a
flowName with `sd[0] == sd[1]` is skipped. -/
def constructTraffic (grouped : List ((Str × Str) × Rat)) : List (Str × List (Str × Rat)) :=
  grouped.foldl
    (fun tr g =>
      let sd := splitSemi g.1.2
      let inner := (alookup g.1.1 tr).getD []
      if (sd.getD 0 []) = (sd.getD 1 []) then upsert g.1.1 inner tr
      else upsert g.1.1 (upsert g.1.2 g.2 inner) tr)
    []

/-- `readTraffic` (data.py lines 161-217), from the parsed records (already
keyed by `(timestamp, flowName)` with `flowName = flowStart + ";" + flowEnd`) to
the returned nested dictionary. -/
def readTraffic (records : List ((Str × Str) × Rat)) : List (Str × List (Str × Rat)) :=
  constructTraffic (groupFirst records)

/-- The enum `LinearOptimizationModel` (LinearOptimization.py lines 21-27). -/
inductive LinearOptimizationModel : Type
  | averageUtilization
  | maxUtilization
  | squaredUtilization
deriving DecidableEq

/-- The `model` argument of `runLinearOptimizationModel`: either one of the three
enumeration members, or any other Python value (matched by the `case _` arm),
carried here as its textual representation. -/
inductive ModelArg : Type
  | valid (m : LinearOptimizationModel)
  | invalid (repr : Str)
deriving DecidableEq

/-- The decision variables registered with the solver. -/
inductive Var : Type
  | pathRatio (sd : Str) (pathNum : Nat)
  | utilization (link : Str)
  | maxUtilization
deriving DecidableEq

/-- A linear expression over the decision variables: a list of
coefficient × variable terms plus a constant. -/
structure LinExpr : Type where
  terms : List (Rat × Var)
  const : Rat
deriving DecidableEq

/-- Relation of a registered constraint. -/
inductive CRel : Type
  | le
  | eq
deriving DecidableEq

/-- A constraint registered with the solver, with its gurobi name. -/
structure Constr : Type where
  lhs : LinExpr
  rel : CRel
  rhs : LinExpr
  name : Str
deriving DecidableEq

/-- The objective registered with the solver: linear, or a sum of squared
variables (the squaredUtilization variant). -/
inductive Objective : Type
  | linear (e : LinExpr)
  | quadratic (terms : List (Rat × Var))
deriving DecidableEq

/-- Everything registered with the solver by `runLinearOptimizationModel` up to
the point where it either reaches `m.optimize()` or raises. -/
structure SolverState : Type where
  vars : List Var
  constrs : List Constr
  objective : Option Objective
deriving DecidableEq

/-- A constant linear expression. -/
def constExpr (c : Rat) : LinExpr := ⟨[], c⟩

/-- Multiplication of a linear expression by a scalar (used for
`link_flow / capacity` in the maxUtilization constraint). -/
def scaleExpr (c : Rat) (e : LinExpr) : LinExpr :=
  ⟨e.terms.map fun t => (c * t.1, t.2), c * e.const⟩

/-- The PathRatios variables (LinearOptimization.py line 61): one per
`(sd, pathNum)` with `sd` ranging over the flows dict and `pathNum` over
`range(len(flows[sd]))`. -/
def pathRatioVars (flows : List (Str × List (List Str))) : List Var :=
  flows.flatMap fun fp => (List.range fp.2.length).map (Var.pathRatio fp.1)

/-- The endpoint decomposition of a link name (LinearOptimization.py line 77):
`linkTuple = tuple((link[:5], link[5:]))`. -/
def linkTuple (link : Str) : Str × Str := (link.take 5, link.drop 5)

/-- The consecutive pairs of a path (LinearOptimization.py line 80):
`zip(path[:-1], path[1:])`. -/
def pathEdges (path : List Str) : List (Str × Str) := path.dropLast.zip path.tail

/-- The `link_flow` expression (LinearOptimization.py lines 78-83):
`Σ (path_ratios[sd, pathNum] * traffic[sd] if linkTuple in zip(...) else 0)`.
A pair whose path does not contain the link contributes the literal 0, hence no
term at all; `traffic[sd]` is totalised with default 0. -/
def linkFlow (flows : List (Str × List (List Str))) (traffic : List (Str × Rat))
    (link : Str) : LinExpr :=
  { terms :=
      flows.flatMap fun fp =>
        (List.range fp.2.length).filterMap fun i =>
          if linkTuple link ∈ pathEdges (fp.2.getD i []) then
            some ((alookup fp.1 traffic).getD 0, Var.pathRatio fp.1 i)
          else none,
    const := 0 }

/-- The capacity constraint (LinearOptimization.py line 85):
`link_flow <= links[link]['capacity']`, named `cap_{link}`. -/
def capConstr (flows : List (Str × List (List Str))) (traffic : List (Str × Rat))
    (link : Str) (cap : Rat) : Constr :=
  ⟨linkFlow flows traffic link, CRel.le, constExpr cap, "cap_".data ++ link⟩

/-- The per-variant utilization constraint (LinearOptimization.py lines 87-95),
named `util_{link}`. -/
def utilConstr (m : LinearOptimizationModel) (flows : List (Str × List (List Str)))
    (traffic : List (Str × Rat)) (link : Str) (cap : Rat) : Constr :=
  match m with
  | LinearOptimizationModel.averageUtilization =>
    ⟨linkFlow flows traffic link, CRel.eq, ⟨[(cap, Var.utilization link)], 0⟩,
      "util_".data ++ link⟩
  | LinearOptimizationModel.maxUtilization =>
    ⟨scaleExpr (1 / cap) (linkFlow flows traffic link), CRel.le,
      ⟨[(1, Var.maxUtilization)], 0⟩, "util_".data ++ link⟩
  | LinearOptimizationModel.squaredUtilization =>
    ⟨linkFlow flows traffic link, CRel.eq, ⟨[(cap, Var.utilization link)], 0⟩,
      "util_".data ++ link⟩

/-- The flow-split constraint (LinearOptimization.py lines 97-98):
`path_ratios.sum(sd, '*') == 1`, named `traffic_split_{sd}`. The tupledict sum
ranges over the PathRatios variables whose first index is `sd`, so it is empty
when `sd` is not a key of the flows dict. -/
def splitConstr (flows : List (Str × List (List Str))) (sd : Str) : Constr :=
  ⟨⟨(match alookup sd flows with
     | some paths => (List.range paths.length).map fun i => ((1 : Rat), Var.pathRatio sd i)
     | none => []), 0⟩,
    CRel.eq, constExpr 1, "traffic_split_".data ++ sd⟩

/-- The model-building phase of `runLinearOptimizationModel`
(LinearOptimization.py lines 61-98), in registration order: PathRatios
variables first, then the variant match (extra variables and objective, or
`ValueError` for an unrecognized variant), then per link the capacity and
utilization constraints, then per traffic key the flow-split constraint.
Returns the solver state together with the raised error message, if any. -/
def runLinearOptimizationModelBuild (model : ModelArg) (links : List (Str × Rat))
    (flows : List (Str × List (List Str))) (traffic : List (Str × Rat)) :
    SolverState × Option Str :=
  let s0 : SolverState := ⟨pathRatioVars flows, [], none⟩
  match model with
  | ModelArg.invalid r => (s0, some ("Invalid model: ".data ++ r))
  | ModelArg.valid m =>
    let s1 : SolverState :=
      match m with
      | LinearOptimizationModel.averageUtilization =>
        { s0 with
          vars := s0.vars ++ links.map fun lc => Var.utilization lc.1,
          objective := some (Objective.linear
            ⟨links.map fun lc => (1 / lc.2, Var.utilization lc.1), 0⟩) }
      | LinearOptimizationModel.maxUtilization =>
        { s0 with
          vars := s0.vars ++ [Var.maxUtilization],
          objective := some (Objective.linear ⟨[(1, Var.maxUtilization)], 0⟩) }
      | LinearOptimizationModel.squaredUtilization =>
        { s0 with
          vars := s0.vars ++ links.map fun lc => Var.utilization lc.1,
          objective := some (Objective.quadratic
            (links.map fun lc => ((1 : Rat), Var.utilization lc.1))) }
    let s2 : SolverState :=
      { s1 with
        constrs := s1.constrs ++ links.flatMap fun lc =>
          [capConstr flows traffic lc.1 lc.2, utilConstr m flows traffic lc.1 lc.2] }
    let s3 : SolverState :=
      { s2 with constrs := s2.constrs ++ traffic.map fun tr => splitConstr flows tr.1 }
    (s3, none)

/-- Value of a linear expression under an assignment of the variables. -/
def evalLin (a : Var → Rat) (e : LinExpr) : Rat :=
  (e.terms.map fun t => t.1 * a t.2).sum + e.const

/-- Whether an assignment satisfies a constraint. -/
def holds (a : Var → Rat) (c : Constr) : Bool :=
  match c.rel with
  | CRel.le => decide (evalLin a c.lhs ≤ evalLin a c.rhs)
  | CRel.eq => decide (evalLin a c.lhs = evalLin a c.rhs)

/-- Coefficient of a variable in a term list: the sum of the coefficients of
the terms mentioning it. -/
def coeffOfTerms (terms : List (Rat × Var)) (v : Var) : Rat :=
  ((terms.filter fun t => decide (t.2 = v)).map Prod.fst).sum

/-- Coefficient of a variable in a linear expression. -/
def coeffOf (e : LinExpr) (v : Var) : Rat := coeffOfTerms e.terms v

/-- The ordered pair `e` appears as a consecutive pair of nodes in `path`
(the specification's reading of the edge-membership test). -/
def isConsecutivePair (e : Str × Str) (path : List Str) : Prop :=
  ∃ j : Nat, path.get? j = some e.1 ∧ path.get? (j + 1) = some e.2

/-- The realized link flow recomputed from solved ratio values
(LinearOptimization.py lines 130-136): the same membership test and sum as the
constraint-side `link_flow`, with the solved `path_ratios[sd, pathNum].x`. -/
def realizedLinkFlow (flows : List (Str × List (List Str))) (traffic : List (Str × Rat))
    (x : Str → Nat → Rat) (link : Str) : Rat :=
  (flows.flatMap fun fp =>
    (List.range fp.2.length).map fun i =>
      if linkTuple link ∈ pathEdges (fp.2.getD i []) then
        x fp.1 i * (alookup fp.1 traffic).getD 0
      else 0).sum

/-- One iteration of the recomputation loop of the result extraction
(LinearOptimization.py lines 129-139): accumulate the link's recomputed
utilization percentage, and record the link name when the percentage passes
the `>= 10` report test. -/
def extractStep (flows : List (Str × List (List Str))) (traffic : List (Str × Rat))
    (x : Str → Nat → Rat) (acc : Rat × List Str) (lc : Str × Rat) : Rat × List Str :=
  let pct := realizedLinkFlow flows traffic x lc.1 / lc.2 * 100
  (acc.1 + pct, if 10 ≤ pct then acc.2 ++ [lc.1] else acc.2)

/-- The OPTIMAL-status result extraction of `runLinearOptimizationModel`
(LinearOptimization.py lines 109-141): an objective-derived figure is computed
first (LinearOptimization.py lines 111-119) and then discarded (overwritten by
`totalLinkUtil = 0` at line 128), after which the average utilization is
recomputed from the solved ratio values. Returns the reported average together
with the reported link names. -/
def extractOptimal (m : LinearOptimizationModel) (links : List (Str × Rat))
    (flows : List (Str × List (List Str))) (traffic : List (Str × Rat))
    (objVal maxUtilVal : Rat) (x : Str → Nat → Rat) : Rat × List Str :=
  let _discardedTotal : Rat :=
    match m with
    | LinearOptimizationModel.averageUtilization => objVal / (links.length : Rat) * 100
    | LinearOptimizationModel.maxUtilization => maxUtilVal * 100
    | LinearOptimizationModel.squaredUtilization => objVal / (links.length : Rat) * 100
  let z := links.foldl (extractStep flows traffic x) (0, [])
  (z.1 / (links.length : Rat), z.2)

/-- A concrete ten-character link name whose 5-character split gives the two
endpoint node names AAAAA and BBBBB. -/
def exLink : Str := ['A', 'A', 'A', 'A', 'A', 'B', 'B', 'B', 'B', 'B']

/-- A concrete two-node path from node AAAAA to node BBBBB. -/
def exPath : List Str := [['A', 'A', 'A', 'A', 'A'], ['B', 'B', 'B', 'B', 'B']]

/-- A concrete flows dictionary with one flow and one candidate path. -/
def exFlows : List (Str × List (List Str)) := [(['f'], [exPath])]

/-- A concrete traffic dictionary with demand 1 for the one flow. -/
def exTraffic : List (Str × Rat) := [(['f'], 1)]

/-- A concrete links dictionary with one link of capacity 1. -/
def exLinks : List (Str × Rat) := [(exLink, 1)]

/-- A concrete assignment of the decision variables: everything 1. -/
def exAssign : Var → Rat := fun v =>
  match v with
  | Var.pathRatio _ _ => 1
  | Var.utilization _ => 1
  | Var.maxUtilization => 1

/-! ### Helper lemmas about association lists -/

/-- Looking a key up after an insert-or-overwrite. -/
theorem alookup_upsert {α β : Type} [DecidableEq α] (k k' : α) (v : β) (d : List (α × β)) :
    alookup k (upsert k' v d) = if k' = k then some v else alookup k d := by
  induction d with
  | nil => simp [alookup, upsert]
  | cons kv rest ih =>
    by_cases h1 : kv.1 = k'
    · by_cases h2 : k' = k
      · simp [alookup, upsert, h1, h2]
      · have h3 : ¬ kv.1 = k := by rw [h1]; exact h2
        simp [alookup, upsert, h1, h2, h3]
    · by_cases h3 : kv.1 = k
      · have h2 : ¬ k' = k := by intro h; exact h1 (h3.trans h.symm)
        have h4 : ¬ k = k' := by intro h; exact h1 (h3.trans h)
        simp [alookup, upsert, h1, h2, h3, h4]
      · simp [alookup, upsert, h1, h3, ih]

/-- A key absent from a dict's keys looks up to `none`. -/
theorem alookup_eq_none {α β : Type} [DecidableEq α] (k : α) (d : List (α × β))
    (h : k ∉ d.map Prod.fst) : alookup k d = none := by
  induction d with
  | nil => rfl
  | cons kv rest ih =>
    simp only [List.map_cons, List.mem_cons] at h
    push_neg at h
    simp [alookup, Ne.symm h.1, ih h.2]

/-- A successful lookup means the key is among the dict's keys. -/
theorem mem_keys_of_alookup {α β : Type} [DecidableEq α] (k : α) (d : List (α × β)) (v : β)
    (h : alookup k d = some v) : k ∈ d.map Prod.fst := by
  induction d with
  | nil => simp [alookup] at h
  | cons kv rest ih =>
    by_cases h1 : kv.1 = k
    · simp [h1]
    · simp only [alookup, h1, if_false] at h
      simp [ih h]

/-- Lookup distributes over append, keeping the first hit. -/
theorem alookup_append {α β : Type} [DecidableEq α] (k : α) (d₁ d₂ : List (α × β)) :
    alookup k (d₁ ++ d₂) = firstSome (alookup k d₁) (alookup k d₂) := by
  induction d₁ with
  | nil => simp [alookup, firstSome]
  | cons kv rest ih =>
    by_cases h1 : kv.1 = k <;> simp [alookup, firstSome, h1, ih]

/-- `firstSome` is associative. -/
theorem firstSome_assoc {β : Type} (a b c : Option β) :
    firstSome (firstSome a b) c = firstSome a (firstSome b c) := by
  cases a <;> simp [firstSome]

/-! ### C9: link-name construction vs the 5-character split -/

/-- C9 counterexample: for `linkStart = "ABCD"` and `linkEnd = "EFGH"` the
5-character split of `"ABCD;EFGH"` is `("ABCD;", "EFGH")`, not
`("ABCD", "EFGH")` — the decomposition does not recover the original pair. -/
theorem linkName_split_roundtrip_cex :
    linkTuple (mkLinkName ['A', 'B', 'C', 'D'] ['E', 'F', 'G', 'H']) ≠
      (['A', 'B', 'C', 'D'], ['E', 'F', 'G', 'H']) := by decide

/-- C9 (amended): for a link name built as `linkStart + ";" + linkEnd` with a
4-character `linkStart`, the split `(name[:5], name[5:])` used by
`runLinearOptimizationModel` yields `(linkStart + ";", linkEnd)`; it never
yields `(linkStart, linkEnd)` itself, the separator staying in the first
component. -/
theorem linkName_split_of_length_four (s e : Str) (h : s.length = 4) :
    linkTuple (mkLinkName s e) = (s ++ [';'], e) ∧ linkTuple (mkLinkName s e) ≠ (s, e) := by
  have hlen : (s ++ [';']).length = 5 := by simp [h]
  have htake : (mkLinkName s e).take 5 = s ++ [';'] := by
    show ((s ++ [';']) ++ e).take 5 = s ++ [';']
    rw [List.take_append_eq_append_take, hlen, List.take_of_length_le (le_of_eq hlen)]
    simp
  have hdrop : (mkLinkName s e).drop 5 = e := by
    show ((s ++ [';']) ++ e).drop 5 = e
    rw [List.drop_append_eq_append_drop, hlen, List.drop_of_length_le (le_of_eq hlen)]
    simp
  have heq : linkTuple (mkLinkName s e) = (s ++ [';'], e) := by
    rw [linkTuple, htake, hdrop]
  refine ⟨heq, ?_⟩
  intro hcontra
  rw [heq] at hcontra
  have h1 : s ++ [';'] = s := congrArg Prod.fst hcontra
  have h2 := congrArg List.length h1
  simp only [List.length_append, List.length_cons, List.length_nil] at h2
  omega

/-- C9 witness: the amended statement at `linkStart = "ABCD"`,
`linkEnd = "EFGH"`. -/
theorem linkName_split_of_length_four_witness :
    (['A', 'B', 'C', 'D'] : Str).length = 4 ∧
    (linkTuple (mkLinkName ['A', 'B', 'C', 'D'] ['E', 'F', 'G', 'H']) =
        (['A', 'B', 'C', 'D'] ++ [';'], ['E', 'F', 'G', 'H']) ∧
      linkTuple (mkLinkName ['A', 'B', 'C', 'D'] ['E', 'F', 'G', 'H']) ≠
        (['A', 'B', 'C', 'D'], ['E', 'F', 'G', 'H'])) :=
  ⟨by decide, linkName_split_of_length_four ['A', 'B', 'C', 'D'] ['E', 'F', 'G', 'H'] (by decide)⟩

/-! ### C4: unrecognized variant -/

/-- C4 counterexample: with one flow of one path, an unrecognized variant does
fail, but the PathRatios variables are already registered when it does — the
variable count is not zero. -/
theorem invalid_variant_zero_vars_cex :
    ((runLinearOptimizationModelBuild (ModelArg.invalid ['x']) []
        [(['f'], [[['A'], ['B']]])] []).2 ≠ none) ∧
    (runLinearOptimizationModelBuild (ModelArg.invalid ['x']) []
        [(['f'], [[['A'], ['B']]])] []).1.vars ≠ [] := by decide

/-- C4 (amended): an unrecognized variant makes `runLinearOptimizationModel`
raise `ValueError` immediately (never a silent default), with zero constraints
and no objective registered — but with the PathRatios decision variables, which
are created before the variant dispatch, already registered. -/
theorem invalid_variant_fails_fast (links : List (Str × Rat))
    (flows : List (Str × List (List Str))) (traffic : List (Str × Rat)) (r : Str) :
    (runLinearOptimizationModelBuild (ModelArg.invalid r) links flows traffic).2 =
      some ("Invalid model: ".data ++ r) ∧
    (runLinearOptimizationModelBuild (ModelArg.invalid r) links flows traffic).1.constrs = [] ∧
    (runLinearOptimizationModelBuild (ModelArg.invalid r) links flows traffic).1.objective =
      none ∧
    (runLinearOptimizationModelBuild (ModelArg.invalid r) links flows traffic).1.vars =
      pathRatioVars flows :=
  ⟨rfl, rfl, rfl, rfl⟩

/-! ### C6: degenerate inputs are not rejected -/

/-- C6: `runLinearOptimizationModel` has no precondition check — with zero
links it builds (without error) a problem whose objective is the empty sum,
and with zero flows it likewise proceeds without error, contradicting the
required precondition violation. -/
theorem degenerate_inputs_not_rejected :
    ((runLinearOptimizationModelBuild (ModelArg.valid LinearOptimizationModel.averageUtilization)
        [] [(['f'], [[['A'], ['B']]])] [(['f'], 50)]).2 = none ∧
      (runLinearOptimizationModelBuild (ModelArg.valid LinearOptimizationModel.averageUtilization)
        [] [(['f'], [[['A'], ['B']]])] [(['f'], 50)]).1.objective =
        some (Objective.linear ⟨[], 0⟩)) ∧
    ((runLinearOptimizationModelBuild (ModelArg.valid LinearOptimizationModel.averageUtilization)
        [(['L'], 100)] [] []).2 = none ∧
      (runLinearOptimizationModelBuild (ModelArg.valid LinearOptimizationModel.averageUtilization)
        [(['L'], 100)] [] []).1.vars ≠ []) := by decide

/-! ### C7: paths kept by readFlows -/

/-- Nested lookup after the flows-dict assignment `flows[ts][fn] = v`. -/
theorem lookupNested_insertFlow {β : Type} (ts fn ts' fn' : Str) (v : β)
    (d : List (Str × List (Str × β))) :
    lookupNested (insertFlow ts fn v d) ts' fn' =
      if ts = ts' ∧ fn = fn' then some v else lookupNested d ts' fn' := by
  by_cases hts : ts = ts'
  · subst hts
    by_cases hfn : fn = fn'
    · subst hfn
      simp [lookupNested, insertFlow, alookup_upsert]
    · have hcond : ¬(ts = ts ∧ fn = fn') := fun h => hfn h.2
      rw [if_neg hcond]
      cases halo : alookup ts d with
      | none => simp [lookupNested, insertFlow, alookup_upsert, halo, hfn, alookup]
      | some inner => simp [lookupNested, insertFlow, alookup_upsert, halo, hfn]
  · have hcond : ¬(ts = ts' ∧ fn = fn') := fun h => hts h.1
    rw [if_neg hcond]
    simp [lookupNested, insertFlow, alookup_upsert, hts]

/-- Invariant preservation through the inner per-path loop of the readFlows
construction (the loop body that may store the whole group list `full`). -/
theorem constructFlows_inner_good (ts0 fn0 : Str) (full : List Str) :
    ∀ (l : List Str) (fl : List (Str × List (Str × List Str))),
      (∀ p ∈ l, p ∈ full) →
      (∀ ts fn ps, lookupNested fl ts fn = some ps →
        (∃ p ∈ ps, 1 < p.length) ∧ (splitSemi fn).getD 0 [] ≠ (splitSemi fn).getD 1 []) →
      ∀ ts fn ps,
        lookupNested
          (l.foldl
            (fun fl p =>
              if 1 < p.length ∧ ((splitSemi fn0).getD 0 []) ≠ ((splitSemi fn0).getD 1 []) then
                insertFlow ts0 fn0 full fl
              else fl)
            fl) ts fn = some ps →
        (∃ p ∈ ps, 1 < p.length) ∧ (splitSemi fn).getD 0 [] ≠ (splitSemi fn).getD 1 []
  | [], _, _, hinv => hinv
  | p :: rest, fl, hsub, hinv => by
    refine constructFlows_inner_good ts0 fn0 full rest
      (if 1 < p.length ∧ ((splitSemi fn0).getD 0 []) ≠ ((splitSemi fn0).getD 1 []) then
        insertFlow ts0 fn0 full fl
      else fl)
      (fun q hq => hsub q (List.mem_cons_of_mem _ hq)) ?_
    by_cases hguard : 1 < p.length ∧ ((splitSemi fn0).getD 0 []) ≠ ((splitSemi fn0).getD 1 [])
    · rw [if_pos hguard]
      intro ts fn ps hlook
      rw [lookupNested_insertFlow] at hlook
      by_cases hkey : ts0 = ts ∧ fn0 = fn
      · rw [if_pos hkey] at hlook
        have hps : full = ps := Option.some.inj hlook
        subst hps
        exact ⟨⟨p, hsub p (List.mem_cons_self p rest), hguard.1⟩, hkey.2 ▸ hguard.2⟩
      · rw [if_neg hkey] at hlook
        exact hinv ts fn ps hlook
    · rw [if_neg hguard]
      exact hinv

/-- Invariant preservation through the outer per-group loop of the readFlows
construction. -/
theorem constructFlows_foldl_good :
    ∀ (grouped : List ((Str × Str) × List Str)) (fl : List (Str × List (Str × List Str))),
      (∀ ts fn ps, lookupNested fl ts fn = some ps →
        (∃ p ∈ ps, 1 < p.length) ∧ (splitSemi fn).getD 0 [] ≠ (splitSemi fn).getD 1 []) →
      ∀ ts fn ps,
        lookupNested
          (grouped.foldl
            (fun flows g =>
              let sd := splitSemi g.1.2
              g.2.foldl
                (fun fl p =>
                  if 1 < p.length ∧ (sd.getD 0 []) ≠ (sd.getD 1 []) then
                    insertFlow g.1.1 g.1.2 g.2 fl
                  else fl)
                flows)
            fl) ts fn = some ps →
        (∃ p ∈ ps, 1 < p.length) ∧ (splitSemi fn).getD 0 [] ≠ (splitSemi fn).getD 1 []
  | [], _, hinv => hinv
  | g :: rest, fl, hinv =>
    constructFlows_foldl_good rest _
      (constructFlows_inner_good g.1.1 g.1.2 g.2 g.2 fl (fun _ hp => hp) hinv)

/-- C7 counterexample: the group of flow `"A;B"` holds the path strings `"xy"`
(length 2) and `"z"` (length 1); because one path passes the guard, the whole
list is stored, so the flows dictionary keeps a path of length 1 < 2. -/
theorem readFlows_short_path_cex :
    lookupNested (constructFlows [((['t'], ['A', ';', 'B']), [['x', 'y'], ['z']])])
        ['t'] ['A', ';', 'B'] = some [['x', 'y'], ['z']] ∧
    (['z'] : Str) ∈ ([['x', 'y'], ['z']] : List Str) ∧ (['z'] : Str).length < 2 := by decide

/-- C7 (amended): every flow kept in the dictionary built by `readFlows` has
distinct source and destination identifiers, and at least one of its stored
paths has length ≥ 2; the stored value is the group's whole path list, which
may also contain paths of length < 2. -/
theorem readFlows_kept_flow (grouped : List ((Str × Str) × List Str)) (ts fn : Str)
    (ps : List Str) (h : lookupNested (constructFlows grouped) ts fn = some ps) :
    (∃ p ∈ ps, 1 < p.length) ∧ (splitSemi fn).getD 0 [] ≠ (splitSemi fn).getD 1 [] := by
  refine constructFlows_foldl_good grouped [] ?_ ts fn ps h
  intro ts' fn' ps' hcontra
  simp [lookupNested, alookup] at hcontra

/-- C7 witness: the amended statement at a concrete kept flow. -/
theorem readFlows_kept_flow_witness :
    lookupNested (constructFlows [((['t'], ['A', ';', 'B']), [['x', 'y']])])
        ['t'] ['A', ';', 'B'] = some [['x', 'y']] ∧
    ((∃ p ∈ ([['x', 'y']] : List Str), 1 < p.length) ∧
      (splitSemi ['A', ';', 'B']).getD 0 [] ≠ (splitSemi ['A', ';', 'B']).getD 1 []) :=
  ⟨by decide,
    readFlows_kept_flow [((['t'], ['A', ';', 'B']), [['x', 'y']])] ['t'] ['A', ';', 'B']
      [['x', 'y']] (by decide)⟩

/-! ### C10: readTraffic keeps the first record and drops self-loops -/

/-- First-per-key grouping does not change lookups for keys not yet seen. -/
theorem alookup_groupFirstAux :
    ∀ (l : List ((Str × Str) × Rat)) (seen : List (Str × Str)) (k : Str × Str), k ∉ seen →
      alookup k (groupFirstAux seen l) = alookup k l
  | [], _, _, _ => rfl
  | r :: rest, seen, k, hk => by
    by_cases hmem : r.1 ∈ seen
    · simp only [groupFirstAux, if_pos hmem]
      have hne : ¬ r.1 = k := fun h => hk (h ▸ hmem)
      rw [alookup_groupFirstAux rest seen k hk]
      simp [alookup, hne]
    · simp only [groupFirstAux, if_neg hmem]
      by_cases hrk : r.1 = k
      · simp [alookup, hrk]
      · simp only [alookup, hrk, if_false]
        refine alookup_groupFirstAux rest (r.1 :: seen) k ?_
        intro hmem2
        rcases List.mem_cons.mp hmem2 with h | h
        · exact hrk h.symm
        · exact hk h

/-- First-per-key grouping produces distinct keys, none of them already seen. -/
theorem groupFirstAux_keys :
    ∀ (l : List ((Str × Str) × Rat)) (seen : List (Str × Str)),
      ((groupFirstAux seen l).map Prod.fst).Nodup ∧
      ∀ k ∈ (groupFirstAux seen l).map Prod.fst, k ∉ seen
  | [], _ => ⟨List.nodup_nil, by simp [groupFirstAux]⟩
  | r :: rest, seen => by
    by_cases hmem : r.1 ∈ seen
    · simpa only [groupFirstAux, if_pos hmem] using groupFirstAux_keys rest seen
    · have ih := groupFirstAux_keys rest (r.1 :: seen)
      simp only [groupFirstAux, if_neg hmem, List.map_cons, List.nodup_cons]
      refine ⟨⟨fun hmem2 => ih.2 r.1 hmem2 (List.mem_cons_self _ _), ih.1⟩, ?_⟩
      intro k hk
      rcases List.mem_cons.mp hk with h | h
      · exact h ▸ hmem
      · exact fun hkseen => ih.2 k h (List.mem_cons_of_mem _ hkseen)

/-- One iteration of the readTraffic construction loop: a record with key
`(gts, gfn)` either stores its value (when the key matches and the flowName is
not a self-loop) or leaves the looked-up entry unchanged — in particular the
self-loop branch only refreshes the timestamp entry. -/
theorem constructTraffic_step (gts gfn : Str) (gv : Rat)
    (tr : List (Str × List (Str × Rat))) (ts fn : Str) :
    lookupNested
      ((fun tr (g : (Str × Str) × Rat) =>
          let sd := splitSemi g.1.2
          let inner := (alookup g.1.1 tr).getD []
          if (sd.getD 0 []) = (sd.getD 1 []) then upsert g.1.1 inner tr
          else upsert g.1.1 (upsert g.1.2 g.2 inner) tr) tr ((gts, gfn), gv)) ts fn =
      if ((gts, gfn) : Str × Str) = (ts, fn) ∧
          ¬((splitSemi gfn).getD 0 [] = (splitSemi gfn).getD 1 []) then some gv
      else lookupNested tr ts fn := by
  show lookupNested
      (if ((splitSemi gfn).getD 0 []) = ((splitSemi gfn).getD 1 []) then
        upsert gts ((alookup gts tr).getD []) tr
      else upsert gts (upsert gfn gv ((alookup gts tr).getD [])) tr) ts fn = _
  by_cases hsd : ((splitSemi gfn).getD 0 []) = ((splitSemi gfn).getD 1 [])
  · rw [if_pos hsd]
    have hre : lookupNested (upsert gts ((alookup gts tr).getD []) tr) ts fn =
        lookupNested tr ts fn := by
      by_cases hts : gts = ts
      · subst hts
        cases halo : alookup gts tr with
        | none => simp [lookupNested, alookup_upsert, halo, alookup]
        | some inner => simp [lookupNested, alookup_upsert, halo]
      · simp [lookupNested, alookup_upsert, hts]
    rw [hre, if_neg (fun h => h.2 hsd)]
  · rw [if_neg hsd]
    show lookupNested (insertFlow gts gfn gv tr) ts fn = _
    rw [lookupNested_insertFlow]
    by_cases hkey : gts = ts ∧ gfn = fn
    · rw [if_pos hkey, if_pos ⟨by rw [hkey.1, hkey.2], hsd⟩]
    · rw [if_neg hkey,
        if_neg (fun h => hkey ⟨congrArg Prod.fst h.1, congrArg Prod.snd h.1⟩)]

/-- The readTraffic construction loop over records with pairwise-distinct keys:
the resulting nested lookup of `(ts, fn)` is the record's value for non-self-loop
flowNames, and the untouched accumulator entry otherwise. -/
theorem constructTraffic_foldl :
    ∀ (grouped : List ((Str × Str) × Rat)), ((grouped.map Prod.fst).Nodup) →
      ∀ (tr : List (Str × List (Str × Rat))) (ts fn : Str),
        lookupNested
          (grouped.foldl
            (fun tr g =>
              let sd := splitSemi g.1.2
              let inner := (alookup g.1.1 tr).getD []
              if (sd.getD 0 []) = (sd.getD 1 []) then upsert g.1.1 inner tr
              else upsert g.1.1 (upsert g.1.2 g.2 inner) tr)
            tr) ts fn =
          match alookup (ts, fn) grouped with
          | some v =>
            if (splitSemi fn).getD 0 [] = (splitSemi fn).getD 1 [] then lookupNested tr ts fn
            else some v
          | none => lookupNested tr ts fn
  | [], _, tr, ts, fn => rfl
  | g :: rest, hnd, tr, ts, fn => by
    obtain ⟨⟨gts, gfn⟩, gv⟩ := g
    rw [List.map_cons, List.nodup_cons] at hnd
    rw [List.foldl_cons, constructTraffic_foldl rest hnd.2,
      constructTraffic_step gts gfn gv tr ts fn]
    by_cases hkey : ((gts, gfn) : Str × Str) = (ts, fn)
    · have hts : gts = ts := congrArg Prod.fst hkey
      have hfn : gfn = fn := congrArg Prod.snd hkey
      subst hts
      subst hfn
      have hrest : alookup ((gts, gfn) : Str × Str) rest = none := alookup_eq_none _ _ hnd.1
      have hhead : alookup ((gts, gfn) : Str × Str) (((gts, gfn), gv) :: rest) = some gv := by
        simp [alookup]
      rw [hrest, hhead]
      by_cases hsd : (splitSemi gfn).getD 0 [] = (splitSemi gfn).getD 1 [] <;> simp [hsd]
    · have hhead : alookup ((ts, fn) : Str × Str) (((gts, gfn), gv) :: rest) =
          alookup (ts, fn) rest := by
        simp [alookup, hkey]
      rw [hhead, if_neg (fun h => hkey h.1)]

/-- C10 counterexample: the key `("t", "A;A")` has two records, yet the
returned traffic dictionary does not contain the first record's value — the
self-loop filter drops the key entirely, so the claim's first conjunct fails. -/
theorem readTraffic_selfloop_dup_cex :
    (([((['t'], ['A', ';', 'A']), (1 : Rat)), ((['t'], ['A', ';', 'A']), 2)].map
        Prod.fst).count (['t'], ['A', ';', 'A']) = 2) ∧
    lookupNested (readTraffic [((['t'], ['A', ';', 'A']), 1), ((['t'], ['A', ';', 'A']), 2)])
      ['t'] ['A', ';', 'A'] = none := by decide

/-- C10 (amended): for every `(timestamp, flowName)` key whose flowName is not
a self-loop, the traffic dictionary returned by `readTraffic` contains the
value of the first record with that key (later duplicates are dropped), and no
flowName whose source equals its destination appears in the result. -/
theorem readTraffic_first_wins (records : List ((Str × Str) × Rat)) (ts fn : Str) (v : Rat)
    (hfirst : alookup (ts, fn) records = some v)
    (hsd : (splitSemi fn).getD 0 [] ≠ (splitSemi fn).getD 1 []) :
    lookupNested (readTraffic records) ts fn = some v ∧
    ∀ ts' fn' : Str, (lookupNested (readTraffic records) ts' fn').isSome = true →
      (splitSemi fn').getD 0 [] ≠ (splitSemi fn').getD 1 [] := by
  have hnd := (groupFirstAux_keys records []).1
  have hlook : alookup (ts, fn) (groupFirst records) = some v := by
    rw [groupFirst, alookup_groupFirstAux records [] _ (List.not_mem_nil _)]
    exact hfirst
  constructor
  · rw [readTraffic, constructTraffic, constructTraffic_foldl (groupFirst records) hnd,
      hlook]
    have hsd2 : ¬ (splitSemi fn)[0]?.getD [] = (splitSemi fn)[1]?.getD [] := by simpa using hsd
    simp [hsd2]
  · intro ts' fn' hsome
    rw [readTraffic, constructTraffic,
      constructTraffic_foldl (groupFirst records) hnd] at hsome
    by_cases hsd' : (splitSemi fn').getD 0 [] = (splitSemi fn').getD 1 []
    · exfalso
      cases halo : alookup (ts', fn') (groupFirst records) with
      | none =>
        rw [halo] at hsome
        simp [lookupNested, alookup] at hsome
      | some w =>
        rw [halo] at hsome
        have hsome' : (if (splitSemi fn').getD 0 [] = (splitSemi fn').getD 1 [] then
            lookupNested ([] : List (Str × List (Str × Rat))) ts' fn'
          else some w).isSome = true := hsome
        rw [if_pos hsd'] at hsome'
        simp [lookupNested, alookup] at hsome'
    · exact hsd'

/-- C10 witness: the amended statement at a key with two records of different
values — the first value (1) is kept. -/
theorem readTraffic_first_wins_witness :
    alookup ((['t'], ['A', ';', 'B']) : Str × Str)
        [((['t'], ['A', ';', 'B']), (1 : Rat)), ((['t'], ['A', ';', 'B']), 2)] = some 1 ∧
    (splitSemi ['A', ';', 'B']).getD 0 [] ≠ (splitSemi ['A', ';', 'B']).getD 1 [] ∧
    lookupNested
      (readTraffic [((['t'], ['A', ';', 'B']), 1), ((['t'], ['A', ';', 'B']), 2)])
      ['t'] ['A', ';', 'B'] = some 1 :=
  ⟨by decide, by decide,
    (readTraffic_first_wins [((['t'], ['A', ';', 'B']), 1), ((['t'], ['A', ';', 'B']), 2)]
      ['t'] ['A', ';', 'B'] 1 (by decide) (by decide)).1⟩

/-! ### C8: merge of per-chunk results -/

/-- Merging one result dict: the last binding of the result wins, else the
accumulator's binding. -/
theorem alookup_mergeOne {α β : Type} [DecidableEq α] (k : α) :
    ∀ (r acc : List (α × β)),
      alookup k (mergeOne acc r) = firstSome (alookup k r.reverse) (alookup k acc)
  | [], acc => by simp [mergeOne, alookup, firstSome]
  | kv :: rest, acc => by
    show alookup k (mergeOne (upsert kv.1 kv.2 acc) rest) = _
    rw [alookup_mergeOne k rest (upsert kv.1 kv.2 acc), List.reverse_cons, alookup_append,
      firstSome_assoc]
    congr 1
    rw [alookup_upsert]
    by_cases h : kv.1 = k <;> simp [alookup, firstSome, h]

/-- Merging into accumulators with equal lookups gives equal lookups. -/
theorem mergeResults_foldl_congr {α β : Type} [DecidableEq α] :
    ∀ (l : List (List (α × β))) (acc₁ acc₂ : List (α × β)),
      (∀ k, alookup k acc₁ = alookup k acc₂) →
      ∀ k, alookup k (l.foldl mergeOne acc₁) = alookup k (l.foldl mergeOne acc₂)
  | [], _, _, h => h
  | r :: rest, acc₁, acc₂, h => by
    refine mergeResults_foldl_congr rest (mergeOne acc₁ r) (mergeOne acc₂ r) ?_ 
    intro k
    rw [alookup_mergeOne, alookup_mergeOne, h k]

/-- Permutation invariance of the chunk-merge fold, given pairwise-disjoint
key sets. -/
theorem mergeResults_perm_aux {α β : Type} [DecidableEq α] :
    ∀ {l₁ l₂ : List (List (α × β))}, l₁.Perm l₂ →
      (l₁.Pairwise fun r s => ∀ x, x ∈ r.map Prod.fst → x ∉ s.map Prod.fst) →
      ∀ (acc : List (α × β)) (k : α),
        alookup k (l₁.foldl mergeOne acc) = alookup k (l₂.foldl mergeOne acc) := by
  intro l₁ l₂ hperm
  induction hperm with
  | nil => intro _ _ _; rfl
  | cons x h ih =>
    intro hdisj acc k
    exact ih (List.pairwise_cons.mp hdisj).2 (mergeOne acc x) k
  | swap x y l =>
    intro hdisj acc k
    refine mergeResults_foldl_congr l (mergeOne (mergeOne acc y) x)
      (mergeOne (mergeOne acc x) y) ?_ k
    intro k'
    simp only [alookup_mergeOne]
    have hxy : ∀ z, z ∈ y.map Prod.fst → z ∉ x.map Prod.fst :=
      (List.pairwise_cons.mp hdisj).1 x (List.mem_cons_self x l)
    cases hx : alookup k' x.reverse with
    | none => simp [firstSome]
    | some vx =>
      cases hy : alookup k' y.reverse with
      | none => simp [firstSome]
      | some vy =>
        exfalso
        have hkx : k' ∈ x.map Prod.fst := by
          simpa using mem_keys_of_alookup k' x.reverse vx hx
        have hky : k' ∈ y.map Prod.fst := by
          simpa using mem_keys_of_alookup k' y.reverse vy hy
        exact hxy k' hky hkx
  | trans hp₁ hp₂ ih₁ ih₂ =>
    intro hdisj acc k
    have hsymm : ∀ {r s : List (α × β)},
        (∀ x, x ∈ r.map Prod.fst → x ∉ s.map Prod.fst) →
        (∀ x, x ∈ s.map Prod.fst → x ∉ r.map Prod.fst) :=
      fun h z hzs hzr => h z hzr hzs
    have hdisj₂ := (hp₁.pairwise_iff hsymm).mp hdisj
    rw [ih₁ hdisj acc k, ih₂ hdisj₂ acc k]

/-- C8 counterexample: two per-chunk results carrying the same key `"k"` with
different values (a group split across a chunk boundary); permuting the result
list changes the merged dictionary, because the comprehension of
`_mergeResults` is last-wins on duplicate keys. -/
theorem mergeResults_order_dependent_cex :
    ([[((['k'] : Str), (1 : Rat))], [(['k'], 2)]]).Perm [[(['k'], 2)], [(['k'], 1)]] ∧
    alookup (['k'] : Str) (mergeResults [[(['k'], (1 : Rat))], [(['k'], 2)]]) ≠
      alookup (['k'] : Str) (mergeResults [[(['k'], (2 : Rat))], [(['k'], 1)]]) := by decide

/-- C8 (amended): when the per-chunk results have pairwise-disjoint key sets
(each `(timestamp, flowName)` group lies in exactly one chunk), `_mergeResults`
is permutation-invariant: every permutation of the result list merges to the
same dictionary (same lookup for every key), so worker completion order does
not affect the assembled model. -/
theorem mergeResults_perm_of_disjoint {α β : Type} [DecidableEq α]
    (l₁ l₂ : List (List (α × β))) (hperm : l₁.Perm l₂)
    (hdisj : l₁.Pairwise fun r s => ∀ x, x ∈ r.map Prod.fst → x ∉ s.map Prod.fst)
    (k : α) : alookup k (mergeResults l₁) = alookup k (mergeResults l₂) :=
  mergeResults_perm_aux hperm hdisj [] k

/-- C8 witness: the amended statement at two disjoint singleton results, in
swapped orders. -/
theorem mergeResults_perm_of_disjoint_witness :
    ([[((['a'] : Str), (1 : Rat))], [(['b'], 2)]]).Perm [[(['b'], (2 : Rat))], [(['a'], 1)]] ∧
    ([[((['a'] : Str), (1 : Rat))], [(['b'], 2)]]).Pairwise
      (fun r s => ∀ x, x ∈ r.map Prod.fst → x ∉ s.map Prod.fst) ∧
    alookup (['a'] : Str) (mergeResults [[(['a'], (1 : Rat))], [(['b'], 2)]]) =
      alookup (['a'] : Str) (mergeResults [[(['b'], (2 : Rat))], [(['a'], 1)]]) :=
  ⟨by decide, by decide,
    mergeResults_perm_of_disjoint [[(['a'], (1 : Rat))], [(['b'], 2)]]
      [[(['b'], (2 : Rat))], [(['a'], 1)]] (by decide) (by decide) ['a']⟩

/-! ### C2: link-flow coefficients -/

/-- Membership in `zip(path[:-1], path[1:])` is exactly consecutive-pair
membership in the path's node sequence. -/
theorem mem_pathEdges : ∀ (path : List Str) (a b : Str),
    (a, b) ∈ pathEdges path ↔ ∃ j : Nat, path.get? j = some a ∧ path.get? (j + 1) = some b
  | [], a, b => by
    simp [pathEdges]
  | [x], a, b => by
    constructor
    · intro h
      simp [pathEdges] at h
    · rintro ⟨j, h1, h2⟩
      cases j with
      | zero => simp at h2
      | succ n => simp at h1
  | x :: y :: rest, a, b => by
    have ih := mem_pathEdges (y :: rest) a b
    have hcons : pathEdges (x :: y :: rest) = (x, y) :: pathEdges (y :: rest) := rfl
    constructor
    · intro h
      rw [hcons] at h
      rcases List.mem_cons.mp h with h | h
      · simp only [Prod.mk.injEq] at h
        exact ⟨0, by simp [h.1], by simp [h.2]⟩
      · obtain ⟨j, h1, h2⟩ := ih.mp h
        exact ⟨j + 1, h1, h2⟩
    · rintro ⟨j, h1, h2⟩
      rw [hcons]
      cases j with
      | zero =>
        have ha : x = a := by simpa using h1
        have hb : y = b := by simpa using h2
        exact ha ▸ hb ▸ List.mem_cons_self _ _
      | succ n =>
        exact List.mem_cons_of_mem _ (ih.mpr ⟨n, h1, h2⟩)

/-- Coefficient over appended term lists. -/
theorem coeffOfTerms_append (t₁ t₂ : List (Rat × Var)) (v : Var) :
    coeffOfTerms (t₁ ++ t₂) v = coeffOfTerms t₁ v + coeffOfTerms t₂ v := by
  simp [coeffOfTerms, List.filter_append]

/-- A variable mentioned by no term has coefficient 0. -/
theorem coeffOfTerms_eq_zero (terms : List (Rat × Var)) (v : Var)
    (h : ∀ t ∈ terms, t.2 ≠ v) : coeffOfTerms terms v = 0 := by
  have hf : terms.filter (fun t => decide (t.2 = v)) = [] := by
    rw [List.filter_eq_nil_iff]
    intro t ht
    simp [h t ht]
  simp [coeffOfTerms, hf]

/-- Coefficient of a single term at its own variable. -/
theorem coeffOfTerms_cons (t : Rat × Var) (ts : List (Rat × Var)) (v : Var) :
    coeffOfTerms (t :: ts) v = (if t.2 = v then t.1 else 0) + coeffOfTerms ts v := by
  by_cases h : t.2 = v <;> simp [coeffOfTerms, List.filter_cons, h]

/-- Coefficient of `PathRatio sd i` in the per-flow filterMap over a
duplicate-free index list. -/
theorem coeffOfTerms_filterMap (sd : Str) (cond : Nat → Prop) [DecidablePred cond]
    (cf : Nat → Rat) :
    ∀ (l : List Nat), l.Nodup → ∀ i ∈ l,
      coeffOfTerms
        (l.filterMap fun j => if cond j then some (cf j, Var.pathRatio sd j) else none)
        (Var.pathRatio sd i) = if cond i then cf i else 0
  | [], _, i, hi => absurd hi (List.not_mem_nil i)
  | j :: rest, hnd, i, hi => by
    rw [List.nodup_cons] at hnd
    have hzero : ∀ i', i' ∉ rest →
        coeffOfTerms
          (rest.filterMap fun j => if cond j then some (cf j, Var.pathRatio sd j) else none)
          (Var.pathRatio sd i') = 0 := by
      intro i' hnotin
      apply coeffOfTerms_eq_zero
      intro t ht hteq
      obtain ⟨j', hj', hjt⟩ := List.mem_filterMap.mp ht
      by_cases hc : cond j'
      · rw [if_pos hc] at hjt
        have ht2 : t.2 = Var.pathRatio sd j' := by rw [← Option.some.inj hjt]
        rw [ht2] at hteq
        simp at hteq
        exact hnotin (hteq ▸ hj')
      · rw [if_neg hc] at hjt
        exact Option.noConfusion hjt
    rcases List.mem_cons.mp hi with rfl | hi'
    · by_cases hc : cond i
      · rw [List.filterMap_cons, if_pos hc]
        show coeffOfTerms ((cf i, Var.pathRatio sd i) :: _) _ = _
        rw [coeffOfTerms_cons, if_pos rfl, hzero i hnd.1, if_pos hc, add_zero]
      · rw [List.filterMap_cons, if_neg hc]
        show coeffOfTerms (rest.filterMap _) _ = _
        rw [hzero i hnd.1, if_neg hc]
    · have hji : j ≠ i := fun h => hnd.1 (h ▸ hi')
      have hrec := coeffOfTerms_filterMap sd cond cf rest hnd.2 i hi'
      by_cases hc : cond j
      · rw [List.filterMap_cons, if_pos hc]
        show coeffOfTerms ((cf j, Var.pathRatio sd j) :: _) _ = _
        rw [coeffOfTerms_cons, if_neg (by simp [hji]), zero_add, hrec]
      · rw [List.filterMap_cons, if_neg hc]
        show coeffOfTerms (rest.filterMap _) _ = _
        rw [hrec]

/-- A flow entry with a different key contributes 0 to the coefficient of
another flow's ratio variable. -/
theorem coeffOfTerms_other_flow (traffic : List (Str × Rat)) (link : Str)
    (fp : Str × List (List Str)) (sd : Str) (i : Nat) (h : ¬ fp.1 = sd) :
    coeffOfTerms
      ((List.range fp.2.length).filterMap fun j =>
        if linkTuple link ∈ pathEdges (fp.2.getD j []) then
          some ((alookup fp.1 traffic).getD 0, Var.pathRatio fp.1 j)
        else none)
      (Var.pathRatio sd i) = 0 := by
  apply coeffOfTerms_eq_zero
  intro t ht hteq
  obtain ⟨j, hj, hjt⟩ := List.mem_filterMap.mp ht
  by_cases hc : linkTuple link ∈ pathEdges (fp.2.getD j [])
  · rw [if_pos hc] at hjt
    have ht2 : t.2 = Var.pathRatio fp.1 j := by rw [← Option.some.inj hjt]
    rw [ht2] at hteq
    simp at hteq
    exact h hteq.1
  · rw [if_neg hc] at hjt
    exact Option.noConfusion hjt

/-- A flow key absent from the flows dict has coefficient 0 everywhere in
`link_flow`. -/
theorem coeffOfTerms_linkFlow_absent (traffic : List (Str × Rat)) (link : Str) :
    ∀ (flows : List (Str × List (List Str))) (sd : Str) (i : Nat), sd ∉ flows.map Prod.fst →
      coeffOfTerms (linkFlow flows traffic link).terms (Var.pathRatio sd i) = 0
  | [], _, _, _ => rfl
  | fp :: rest, sd, i, hnot => by
    rw [List.map_cons, List.mem_cons] at hnot
    push_neg at hnot
    have hsplit : (linkFlow (fp :: rest) traffic link).terms =
        ((List.range fp.2.length).filterMap fun j =>
          if linkTuple link ∈ pathEdges (fp.2.getD j []) then
            some ((alookup fp.1 traffic).getD 0, Var.pathRatio fp.1 j)
          else none) ++ (linkFlow rest traffic link).terms := rfl
    rw [hsplit, coeffOfTerms_append,
      coeffOfTerms_other_flow traffic link fp sd i (fun h => hnot.1 h.symm),
      coeffOfTerms_linkFlow_absent traffic link rest sd i hnot.2, add_zero]

/-- C2: for every link and `(flow, path)` pair, the coefficient of
`PathRatio[flow, path]` in the `link_flow` expression equals `demand[flow]` when
the link's ordered endpoint pair (the 5-character split of its name) appears as
a consecutive pair of the path's node sequence, and 0 otherwise. -/
theorem linkFlow_coefficient :
    ∀ (flows : List (Str × List (List Str))) (traffic : List (Str × Rat)) (link sd : Str)
      (paths : List (List Str)) (d : Rat) (i : Nat),
      (flows.map Prod.fst).Nodup →
      alookup sd flows = some paths →
      alookup sd traffic = some d →
      i < paths.length →
      (isConsecutivePair (linkTuple link) (paths.getD i []) →
        coeffOf (linkFlow flows traffic link) (Var.pathRatio sd i) = d) ∧
      (¬ isConsecutivePair (linkTuple link) (paths.getD i []) →
        coeffOf (linkFlow flows traffic link) (Var.pathRatio sd i) = 0)
  | [], traffic, link, sd, paths, d, i, _, hf, _, _ => by simp [alookup] at hf
  | fp :: rest, traffic, link, sd, paths, d, i, hnd, hf, ht, hi => by
    rw [List.map_cons, List.nodup_cons] at hnd
    have hsplit : coeffOf (linkFlow (fp :: rest) traffic link) (Var.pathRatio sd i) =
        coeffOfTerms
          ((List.range fp.2.length).filterMap fun j =>
            if linkTuple link ∈ pathEdges (fp.2.getD j []) then
              some ((alookup fp.1 traffic).getD 0, Var.pathRatio fp.1 j)
            else none) (Var.pathRatio sd i) +
        coeffOfTerms (linkFlow rest traffic link).terms (Var.pathRatio sd i) :=
      coeffOfTerms_append _ _ _
    by_cases hsd : fp.1 = sd
    · subst hsd
      have hpaths : fp.2 = paths := by
        have h0 : alookup fp.1 (fp :: rest) = some fp.2 := by simp [alookup]
        rw [h0] at hf
        exact Option.some.inj hf
      subst hpaths
      have hcf := coeffOfTerms_filterMap fp.1
        (fun j => linkTuple link ∈ pathEdges (fp.2.getD j []))
        (fun _ => (alookup fp.1 traffic).getD 0) (List.range fp.2.length)
        (List.nodup_range _) i (List.mem_range.mpr hi)
      have habs := coeffOfTerms_linkFlow_absent traffic link rest fp.1 i hnd.1
      constructor
      · intro hcons
        have hc : linkTuple link ∈ pathEdges (fp.2.getD i []) := (mem_pathEdges _ _ _).mpr hcons
        rw [hsplit, habs, hcf, if_pos hc, ht, add_zero]
        rfl
      · intro hcons
        have hc : linkTuple link ∉ pathEdges (fp.2.getD i []) :=
          fun h => hcons ((mem_pathEdges _ _ _).mp h)
        rw [hsplit, habs, hcf, if_neg hc, add_zero]
    · have hf' : alookup sd rest = some paths := by
        simp only [alookup, hsd, if_false] at hf
        exact hf
      have ih := linkFlow_coefficient rest traffic link sd paths d i hnd.2 hf' ht hi
      have hother := coeffOfTerms_other_flow traffic link fp sd i hsd
      constructor
      · intro hcons
        rw [hsplit, hother, zero_add]
        exact ih.1 hcons
      · intro hcons
        rw [hsplit, hother, zero_add]
        exact ih.2 hcons

/-- C2 witness: the coefficient statement at the one-flow, one-path, one-link
instance, where the link's endpoint pair is consecutive in the path. -/
theorem linkFlow_coefficient_witness :
    ((exFlows.map Prod.fst).Nodup) ∧ alookup (['f'] : Str) exFlows = some [exPath] ∧
    alookup (['f'] : Str) exTraffic = some 1 ∧ 0 < ([exPath] : List (List Str)).length ∧
    coeffOf (linkFlow exFlows exTraffic exLink) (Var.pathRatio ['f'] 0) = 1 :=
  ⟨by decide, by decide, by decide, by decide,
    (linkFlow_coefficient exFlows exTraffic exLink ['f'] [exPath] 1 0 (by decide) (by decide)
      (by decide) (by decide)).1 ⟨0, rfl, rfl⟩⟩

/-! ### C3: capacity constraints and their soundness -/

/-- The constraints registered by a valid-variant build, in order: per link the
capacity and utilization constraints, then per traffic key the split
constraint. -/
theorem build_constrs (m : LinearOptimizationModel) (links : List (Str × Rat))
    (flows : List (Str × List (List Str))) (traffic : List (Str × Rat)) :
    (runLinearOptimizationModelBuild (ModelArg.valid m) links flows traffic).1.constrs =
      (links.flatMap fun lc =>
        [capConstr flows traffic lc.1 lc.2, utilConstr m flows traffic lc.1 lc.2]) ++
      traffic.map fun tr => splitConstr flows tr.1 := by
  cases m <;> rfl

/-- Sum over a filterMap of optional terms equals the sum of the guarded
products. -/
theorem sum_filterMap_if {γ : Type} (cond : γ → Prop) [DecidablePred cond]
    (cf : γ → Rat) (v : γ → Var) (a : Var → Rat) :
    ∀ l : List γ,
      ((l.filterMap fun j => if cond j then some (cf j, v j) else none).map
        fun t => t.1 * a t.2).sum
        = (l.map fun j => if cond j then a (v j) * cf j else 0).sum
  | [] => rfl
  | j :: rest => by
    by_cases h : cond j <;>
      simp [List.filterMap_cons, h, sum_filterMap_if cond cf v a rest, mul_comm]

/-- The value of the `link_flow` expression under an assignment is exactly the
recomputed realized link flow at the assignment's ratio values. -/
theorem evalLin_linkFlow (a : Var → Rat) :
    ∀ (flows : List (Str × List (List Str))) (traffic : List (Str × Rat)) (link : Str),
      evalLin a (linkFlow flows traffic link) =
        realizedLinkFlow flows traffic (fun sd i => a (Var.pathRatio sd i)) link
  | [], _, _ => by simp [evalLin, linkFlow, realizedLinkFlow]
  | fp :: rest, traffic, link => by
    have ih := evalLin_linkFlow a rest traffic link
    have key := sum_filterMap_if
      (fun j => linkTuple link ∈ pathEdges (fp.2.getD j []))
      (fun _ => (alookup fp.1 traffic).getD 0)
      (fun j => Var.pathRatio fp.1 j) a (List.range fp.2.length)
    simp only [evalLin, linkFlow, realizedLinkFlow, List.flatMap_cons, List.map_append,
      List.sum_append, add_zero] at ih key ⊢
    rw [key, ih]

/-- C3: for every link of the model, the problem built by
`runLinearOptimizationModel` contains the hard capacity constraint
`link_flow ≤ capacity`, and any assignment satisfying the formulated
constraints keeps the recomputed realized traffic of that link within its
capacity — for every variant. -/
theorem capacity_constraint_sound (m : LinearOptimizationModel) (links : List (Str × Rat))
    (flows : List (Str × List (List Str))) (traffic : List (Str × Rat)) (link : Str)
    (cap : Rat) (a : Var → Rat) (hmem : (link, cap) ∈ links)
    (hsat : ∀ c ∈ (runLinearOptimizationModelBuild
        (ModelArg.valid m) links flows traffic).1.constrs, holds a c = true) :
    capConstr flows traffic link cap ∈
      (runLinearOptimizationModelBuild (ModelArg.valid m) links flows traffic).1.constrs ∧
    realizedLinkFlow flows traffic (fun sd i => a (Var.pathRatio sd i)) link ≤ cap := by
  have hmem2 : capConstr flows traffic link cap ∈
      (runLinearOptimizationModelBuild (ModelArg.valid m) links flows traffic).1.constrs := by
    rw [build_constrs]
    refine List.mem_append_left _ ?_
    exact List.mem_flatMap.mpr ⟨(link, cap), hmem, List.mem_cons_self _ _⟩
  refine ⟨hmem2, ?_⟩
  have h := hsat _ hmem2
  have hle : evalLin a (capConstr flows traffic link cap).lhs ≤
      evalLin a (capConstr flows traffic link cap).rhs := of_decide_eq_true h
  have h1 : evalLin a (capConstr flows traffic link cap).lhs =
      realizedLinkFlow flows traffic (fun sd i => a (Var.pathRatio sd i)) link :=
    evalLin_linkFlow a flows traffic link
  have h2 : evalLin a (capConstr flows traffic link cap).rhs = cap := by
    simp [evalLin, capConstr, constExpr]
  rw [h1, h2] at hle
  exact hle

/-- C3 witness: the soundness statement at the one-link instance, with the
all-ones assignment, which satisfies every constraint of the built problem. -/
theorem capacity_constraint_sound_witness :
    ((exLink, (1 : Rat)) ∈ exLinks) ∧
    capConstr exFlows exTraffic exLink 1 ∈
      (runLinearOptimizationModelBuild
        (ModelArg.valid LinearOptimizationModel.averageUtilization)
        exLinks exFlows exTraffic).1.constrs ∧
    realizedLinkFlow exFlows exTraffic (fun sd i => exAssign (Var.pathRatio sd i)) exLink ≤ 1 := by
  have hsat : ∀ c ∈ (runLinearOptimizationModelBuild
      (ModelArg.valid LinearOptimizationModel.averageUtilization)
      exLinks exFlows exTraffic).1.constrs, holds exAssign c = true := by
    intro c hc
    have hc' : c ∈ [capConstr exFlows exTraffic exLink 1,
        utilConstr LinearOptimizationModel.averageUtilization exFlows exTraffic exLink 1,
        splitConstr exFlows ['f']] := hc
    rcases List.mem_cons.mp hc' with h | hc'
    · subst h
      simp +decide [List.range_succ, holds, evalLin, capConstr, linkFlow, constExpr, exFlows,
        exTraffic, exPath, exLink, linkTuple, pathEdges, alookup, exAssign]
    rcases List.mem_cons.mp hc' with h | hc'
    · subst h
      simp +decide [List.range_succ, holds, evalLin, utilConstr, linkFlow, constExpr, exFlows,
        exTraffic, exPath, exLink, linkTuple, pathEdges, alookup, exAssign]
    rcases List.mem_cons.mp hc' with h | hc'
    · subst h
      simp +decide [List.range_succ, holds, evalLin, splitConstr, constExpr, exFlows, alookup,
        exAssign]
    · exact absurd hc' (List.not_mem_nil c)
  have h := capacity_constraint_sound LinearOptimizationModel.averageUtilization exLinks
    exFlows exTraffic exLink 1 exAssign (by decide) hsat
  exact ⟨by decide, h.1, h.2⟩

/-! ### C5: the reported average utilization is recomputed -/

/-- The recomputation fold of the result extraction accumulates the sum of the
per-link percentages and appends the names of the links passing the `>= 10`
report test. -/
theorem extractOptimal_foldl (flows : List (Str × List (List Str)))
    (traffic : List (Str × Rat)) (x : Str → Nat → Rat) :
    ∀ (links : List (Str × Rat)) (acc : Rat × List Str),
      links.foldl (extractStep flows traffic x) acc =
        (acc.1 + (links.map fun lc => realizedLinkFlow flows traffic x lc.1 / lc.2 * 100).sum,
         acc.2 ++ (links.filter fun lc =>
           decide (10 ≤ realizedLinkFlow flows traffic x lc.1 / lc.2 * 100)).map Prod.fst)
  | [], acc => by simp
  | lc :: rest, acc => by
    rw [List.foldl_cons, extractOptimal_foldl flows traffic x rest]
    by_cases h : 10 ≤ realizedLinkFlow flows traffic x lc.1 / lc.2 * 100
    · simp [extractStep, h, List.filter_cons, add_assoc]
    · simp [extractStep, h, List.filter_cons, add_assoc]

/-- C5: on OPTIMAL status, for every variant, the finally reported average link
utilization is recomputed from the solved ratio values and demands — the mean
over links of `link_flow / capacity × 100` — and does not depend on the
objective value (or on the solved `maxUtil`); every link whose recomputed
percentage exceeds 10 is among the reported links. -/
theorem extract_recomputed (m : LinearOptimizationModel) (links : List (Str × Rat))
    (flows : List (Str × List (List Str))) (traffic : List (Str × Rat))
    (o o' mv mv' : Rat) (x : Str → Nat → Rat) (link : Str) (cap : Rat)
    (hmem : (link, cap) ∈ links)
    (hpct : 10 < realizedLinkFlow flows traffic x link / cap * 100) :
    extractOptimal m links flows traffic o mv x = extractOptimal m links flows traffic o' mv' x ∧
    (extractOptimal m links flows traffic o mv x).1 =
      (links.map fun lc => realizedLinkFlow flows traffic x lc.1 / lc.2 * 100).sum /
        (links.length : Rat) ∧
    link ∈ (extractOptimal m links flows traffic o mv x).2 := by
  refine ⟨by cases m <;> rfl, ?_, ?_⟩
  · show (links.foldl (extractStep flows traffic x) (0, [])).1 / (links.length : Rat) = _
    rw [extractOptimal_foldl]
    simp
  · show link ∈ (links.foldl (extractStep flows traffic x) (0, [])).2
    rw [extractOptimal_foldl]
    show link ∈ [] ++ _
    rw [List.nil_append]
    exact List.mem_map.mpr
      ⟨(link, cap), List.mem_filter.mpr ⟨hmem, decide_eq_true (le_of_lt hpct)⟩, rfl⟩

/-- C5 witness: the extraction statement at the one-link instance with the
all-ones ratio assignment (utilization 100%, so the link is reported), for two
different pairs of objective / maxUtil values. -/
theorem extract_recomputed_witness :
    ((exLink, (1 : Rat)) ∈ exLinks) ∧
    ((10 : Rat) < realizedLinkFlow exFlows exTraffic (fun _ _ => 1) exLink / 1 * 100) ∧
    extractOptimal LinearOptimizationModel.averageUtilization exLinks exFlows exTraffic 5 7
        (fun _ _ => 1) =
      extractOptimal LinearOptimizationModel.averageUtilization exLinks exFlows exTraffic 3 2
        (fun _ _ => 1) ∧
    exLink ∈ (extractOptimal LinearOptimizationModel.averageUtilization exLinks exFlows
        exTraffic 5 7 (fun _ _ => 1)).2 := by
  have hpct : (10 : Rat) < realizedLinkFlow exFlows exTraffic (fun _ _ => 1) exLink / 1 * 100 := by
    norm_num [List.range_succ, realizedLinkFlow, exFlows, exTraffic, exPath, exLink, linkTuple,
      pathEdges, alookup]
  have h := extract_recomputed LinearOptimizationModel.averageUtilization exLinks exFlows
    exTraffic 5 3 7 2 (fun _ _ => 1) exLink 1 (by decide) hpct
  exact ⟨by decide, hpct, h.1, h.2.2⟩

/-! ### C1: flow-split constraints -/

/-- C1 counterexample: the split constraints are emitted per traffic key, not
per flow. With flows `f` and `h` but traffic keys `f` and `g`, flow `h`'s
PathRatio variable appears in no constraint at all (so no sum-to-1 equality
for it exists), while the traffic key `g`, absent from the flows dict, yields
an equality constraint whose left side is the empty sum and whose right side
is 1. -/
theorem flow_split_constraints_cex :
    (∀ c ∈ (runLinearOptimizationModelBuild
        (ModelArg.valid LinearOptimizationModel.averageUtilization)
        [] [(['f'], [[['A'], ['B']]]), (['h'], [[['A'], ['B']]])]
        [(['f'], 1), (['g'], 1)]).1.constrs,
      ∀ t ∈ c.lhs.terms, t.2 ≠ Var.pathRatio ['h'] 0) ∧
    (∃ c ∈ (runLinearOptimizationModelBuild
        (ModelArg.valid LinearOptimizationModel.averageUtilization)
        [] [(['f'], [[['A'], ['B']]]), (['h'], [[['A'], ['B']]])]
        [(['f'], 1), (['g'], 1)]).1.constrs,
      c.rel = CRel.eq ∧ c.rhs = constExpr 1 ∧ c.lhs.terms = []) := by decide

/-- C1 (amended): for every flow that appears as a key of the traffic mapping,
the formulated problem contains the equality constraint summing that flow's
PathRatio variables, over all of its candidate path indices, to exactly 1;
and provided every traffic key is a flow of the model with at least one
candidate path, no equality-to-1 constraint of the problem has an empty
left-hand sum. -/
theorem flow_split_constraints (m : LinearOptimizationModel) (links : List (Str × Rat))
    (flows : List (Str × List (List Str))) (traffic : List (Str × Rat)) (sd : Str)
    (paths : List (List Str)) (hsd : sd ∈ traffic.map Prod.fst)
    (hp : alookup sd flows = some paths) :
    (⟨⟨(List.range paths.length).map fun i => ((1 : Rat), Var.pathRatio sd i), 0⟩, CRel.eq,
        constExpr 1, "traffic_split_".data ++ sd⟩ : Constr) ∈
      (runLinearOptimizationModelBuild (ModelArg.valid m) links flows traffic).1.constrs ∧
    ((∀ k ∈ traffic.map Prod.fst, ∃ ps, alookup k flows = some ps ∧ ps ≠ []) →
      ∀ c ∈ (runLinearOptimizationModelBuild (ModelArg.valid m) links flows traffic).1.constrs,
        c.rel = CRel.eq → c.rhs = constExpr 1 → c.lhs.terms ≠ []) := by
  constructor
  · rw [build_constrs]
    refine List.mem_append_right _ ?_
    obtain ⟨tr, htr, heq⟩ := List.mem_map.mp hsd
    subst heq
    refine List.mem_map.mpr ⟨tr, htr, ?_⟩
    simp [splitConstr, hp]
  · intro hall c hc hrel hrhs
    rw [build_constrs] at hc
    rcases List.mem_append.mp hc with hc | hc
    · obtain ⟨lc, _, hcin⟩ := List.mem_flatMap.mp hc
      rcases List.mem_cons.mp hcin with rfl | hcin
      · simp [capConstr] at hrel
      · rcases List.mem_cons.mp hcin with rfl | hcin
        · cases m
          · simp [utilConstr, constExpr] at hrhs
          · simp [utilConstr] at hrel
          · simp [utilConstr, constExpr] at hrhs
        · exact absurd hcin (List.not_mem_nil c)
    · obtain ⟨tr, htr, heq⟩ := List.mem_map.mp hc
      obtain ⟨ps, hps, hne⟩ := hall tr.1 (List.mem_map_of_mem Prod.fst htr)
      subst heq
      show (splitConstr flows tr.1).lhs.terms ≠ []
      simp only [splitConstr, hps]
      intro habs
      have h1 : List.range ps.length = [] := List.map_eq_nil_iff.mp habs
      have h2 : ps.length = 0 := List.range_eq_nil.mp h1
      exact hne (List.length_eq_zero.mp h2)

/-- C1 witness: the amended statement at the one-flow instance whose traffic
key set equals its flow key set. -/
theorem flow_split_constraints_witness :
    ((['f'] : Str) ∈ exTraffic.map Prod.fst) ∧
    alookup (['f'] : Str) exFlows = some [exPath] ∧
    (⟨⟨(List.range ([exPath] : List (List Str)).length).map fun i =>
          ((1 : Rat), Var.pathRatio ['f'] i), 0⟩, CRel.eq, constExpr 1,
        "traffic_split_".data ++ ['f']⟩ : Constr) ∈
      (runLinearOptimizationModelBuild (ModelArg.valid LinearOptimizationModel.averageUtilization)
        [] exFlows exTraffic).1.constrs :=
  ⟨by decide, by decide,
    (flow_split_constraints LinearOptimizationModel.averageUtilization [] exFlows exTraffic
      ['f'] [exPath] (by decide) (by decide)).1⟩
